import Mathlib

/-!
# Verification of the blockchain ledger engine

Shallow embedding of `src/blockchain.py` (the `Block` and `Blockchain`
classes) and of the command dispatch of `src/server.py`.

Modelling decisions, all recorded next to the definitions they concern:

* The SHA-256 digest over the canonical JSON serialization of the five
  hashed fields (`calculate_hash`) is abstracted as an opaque function
  parameter `H : HashFn` applied to those five fields; every definition is
  parametric in `H`.  Concrete toy digests are supplied for witnesses.
* `time.time()` timestamps (floats) are modelled as natural numbers
  supplied by the caller (`now` arguments).
* The opaque `data` payload (`Any` in Python) is modelled by the inductive
  `Data`: a single serializable value or an ordered batch of values.
* Python's built-in string operations `startswith`, `upper` and
  `split(" ", 1)` are modelled by the structural char-list functions
  `startswith`, `upper_str` and `split1` below, with the same semantics.
* The unbounded `while` loop of `_proof_of_work` is modelled with explicit
  fuel: a `none` result stands for a search that has not yet terminated,
  and `some` for the value the Python loop returns.
-/

/-- Python `s.startswith(pre)` on the underlying character lists:
`prefix_chars pre s` is true iff `pre` is a prefix of `s`. -/
def prefix_chars : List Char → List Char → Bool
| [], _ => true
| _ :: _, [] => false
| a :: p, b :: t => a == b && prefix_chars p t

/-- Python `s.startswith(pre)`. -/
def startswith (s pre : String) : Bool := prefix_chars pre.data s.data

/-- Python `s.upper()`. -/
def upper_str (s : String) : String := String.mk (s.data.map Char.toUpper)

/-- Python `s.split(" ", 1)`: the characters before the first space, and
(if a space occurs) the characters after it. -/
def split1 : List Char → List Char × Option (List Char)
| [] => ([], none)
| c :: cs =>
  if c = ' ' then ([], some cs)
  else
    let r := split1 cs
    (c :: r.1, r.2)

/-- The opaque block payload (`Any` in Python): a single serializable
value, or an ordered batch (the snapshot of the pending list). -/
inductive Data where
| str : String → Data
| list : List Data → Data

/-- Abstraction of the SHA-256 digest of the canonical JSON serialization
used by `Block.calculate_hash`: a function of the five hashed fields
`index`, `timestamp`, `data`, `previous_hash`, `nonce`. -/
def HashFn : Type := Nat → Nat → Data → String → Nat → String

/-- The `Block` class: its six instance attributes. -/
structure Block where
  index : Nat
  timestamp : Nat
  data : Data
  previous_hash : String
  nonce : Nat
  hash : String

/-- `Block.calculate_hash`: the digest of the five content fields (the
stored `hash` attribute is not part of the digested dictionary). -/
def calculate_hash (H : HashFn) (b : Block) : String :=
  H b.index b.timestamp b.data b.previous_hash b.nonce

/-- `Block.__init__`: stores the five fields and sets
`self.hash = self.calculate_hash()`. -/
def Block.init (H : HashFn) (index timestamp : Nat) (data : Data)
    (previous_hash : String) (nonce : Nat) : Block :=
  { index := index, timestamp := timestamp, data := data,
    previous_hash := previous_hash, nonce := nonce,
    hash := H index timestamp data previous_hash nonce }

/-- The dictionary representation of a block: the six entries written by
`Block.to_dict` and read by `Block.from_dict`. -/
structure BlockDict where
  index : Nat
  timestamp : Nat
  data : Data
  previous_hash : String
  nonce : Nat
  hash : String

/-- `Block.to_dict`. -/
def Block.to_dict (b : Block) : BlockDict :=
  { index := b.index, timestamp := b.timestamp, data := b.data,
    previous_hash := b.previous_hash, nonce := b.nonce, hash := b.hash }

/-- `Block.from_dict`: calls the constructor on the five content entries of
the dictionary.  The dictionary's `hash` entry is never read: `__init__`
recomputes the hash from the five fields. -/
def Block.from_dict (H : HashFn) (d : BlockDict) : Block :=
  Block.init H d.index d.timestamp d.data d.previous_hash d.nonce

/-- The difficulty target `"0" * difficulty`. -/
def target (difficulty : Nat) : String := String.mk (List.replicate difficulty '0')

/-- The `Blockchain` class: its three instance attributes. -/
structure Blockchain where
  chain : List Block
  difficulty : Nat
  pending_data : List Data

/-- `Blockchain._create_genesis_block`: the block appended on
construction (`now` stands for the `time.time()` call). -/
def create_genesis_block (H : HashFn) (now : Nat) : Block :=
  Block.init H 0 now (Data.str "Genesis Block") "0" 0

/-- `Blockchain.__init__`: empty pending list, the given difficulty, and a
chain holding only the genesis block. -/
def Blockchain.init (H : HashFn) (difficulty : Nat) (now : Nat) : Blockchain :=
  { chain := [create_genesis_block H now], difficulty := difficulty,
    pending_data := [] }

/-- `Blockchain.get_latest_block`: `self.chain[-1]`; `none` models the
`IndexError` Python would raise on an empty chain. -/
def get_latest_block (bc : Blockchain) : Option Block :=
  bc.chain.getLast?

/-- `Blockchain.add_data`: `self.pending_data.append(data)`. -/
def add_data (bc : Blockchain) (d : Data) : Blockchain :=
  { bc with pending_data := bc.pending_data ++ [d] }

/-- `Blockchain._proof_of_work`: the `while` loop, with explicit fuel
bounding the number of nonce increments.  The loop tests the *stored*
hash, and on failure increments the nonce and recomputes the hash.
`none` models a search that has not yet terminated. -/
def proof_of_work (H : HashFn) (difficulty : Nat) : Nat → Block → Option Block
| 0, block =>
  if startswith block.hash (target difficulty) then some block else none
| fuel + 1, block =>
  if startswith block.hash (target difficulty) then some block
  else
    let stepped := { block with nonce := block.nonce + 1 }
    proof_of_work H difficulty fuel { stepped with hash := calculate_hash H stepped }

/-- `Blockchain.mine_pending_data`.  The result is
`some (none, bc)` when there is no pending data (Python returns `None`),
`some (some b, bc2)` when a block was mined and appended, and `none` when
the call does not return within the given fuel (or the chain is empty and
`self.get_latest_block()` would raise). -/
def mine_pending_data (H : HashFn) (fuel now : Nat) (bc : Blockchain) :
    Option (Option Block × Blockchain) :=
  if bc.pending_data.isEmpty then some (none, bc)
  else
    match get_latest_block bc with
    | none => none
    | some last =>
      let new_block := Block.init H bc.chain.length now
        (Data.list bc.pending_data) last.hash 0
      match proof_of_work H bc.difficulty fuel new_block with
      | none => none
      | some mined =>
        some (some mined, { bc with chain := bc.chain ++ [mined], pending_data := [] })

/-- The body of the `for i in range(1, len(self.chain))` loop of
`Blockchain.is_chain_valid`, as a recursion over adjacent pairs: `prev` is
`self.chain[i - 1]` and the list holds the blocks from position `i` on. -/
def chain_check (H : HashFn) (difficulty : Nat) : Block → List Block → Bool
| _, [] => true
| prev, cur :: rest =>
  if cur.hash ≠ calculate_hash H cur then false
  else if cur.previous_hash ≠ prev.hash then false
  else if startswith cur.hash (target difficulty) then chain_check H difficulty cur rest
  else false

/-- `Blockchain.is_chain_valid`, on an explicit chain and difficulty. -/
def is_chain_valid (H : HashFn) (difficulty : Nat) : List Block → Bool
| [] => true
| b :: rest => chain_check H difficulty b rest

/-- `Blockchain.get_chain_data`. -/
def get_chain_data (bc : Blockchain) : List BlockDict :=
  bc.chain.map Block.to_dict

/-- `Blockchain.replace_chain`: rebuild every block with
`Block.from_dict`, validate the rebuilt chain against the ledger's own
difficulty (the throwaway `temp_blockchain` only carries `self.difficulty`
into `is_chain_valid`), and adopt it iff it is strictly longer and valid.
Returns the Python return value together with the updated ledger. -/
def replace_chain (H : HashFn) (bc : Blockchain) (new_chain_data : List BlockDict) :
    Bool × Blockchain :=
  let new_chain := new_chain_data.map (Block.from_dict H)
  if new_chain.length > bc.chain.length ∧ is_chain_valid H bc.difficulty new_chain = true
  then (true, { bc with chain := new_chain })
  else (false, bc)

/-- The `status` field of the JSON responses of `src/server.py`. -/
inductive Status where
| success : Status
| info : Status
| error : Status

/-- The structured JSON responses built by `src/server.py`, one
constructor per `json.dumps` site, carrying the data-bearing fields. -/
inductive Response where
| added : Response
| mined : Nat → String → Response
| nothing_to_mine : Response
| chain_data : List BlockDict → Response
| valid_resp : Bool → Response
| length_resp : Nat → Response
| unknown : String → Response
| image_saved : Response

/-- The `status` field of each response. -/
def Response.status : Response → Status
| .added => .success
| .mined _ _ => .success
| .nothing_to_mine => .info
| .chain_data _ => .success
| .valid_resp _ => .success
| .length_resp _ => .success
| .unknown _ => .error
| .image_saved => .success

/-- `handle_command` of `src/server.py`, returning the response together
with the ledger state after the call.  The `ADD` branch stages the
payload whether or not it parses as JSON (both Python branches call
`add_data` and return the same response; the parsed/raw distinction is
not observable here, so the argument is staged as an opaque value).
`none` models a `MINE` call that does not return. -/
def handle_command (H : HashFn) (fuel now : Nat) (bc : Blockchain)
    (command cmd_data : String) : Option (Response × Blockchain) :=
  if command = "ADD" then some (.added, add_data bc (Data.str cmd_data))
  else if command = "MINE" then
    match mine_pending_data H fuel now bc with
    | none => none
    | some (some b, bc2) => some (.mined b.index b.hash, bc2)
    | some (none, bc2) => some (.nothing_to_mine, bc2)
  else if command = "CHAIN" then some (.chain_data (get_chain_data bc), bc)
  else if command = "VALIDATE" then
    some (.valid_resp (is_chain_valid H bc.difficulty bc.chain), bc)
  else if command = "LENGTH" then some (.length_resp bc.chain.length, bc)
  else some (.unknown command, bc)

/-- `parts[0].upper()` of the request loop of `run_server`: the first
whitespace-separated token of the (stripped) message, uppercased. -/
def first_token (message : String) : String :=
  upper_str (String.mk (split1 message.data).1)

/-- `parts[1] if len(parts) > 1 else ""` of the request loop. -/
def rest_after_space (message : String) : String :=
  String.mk ((split1 message.data).2.getD [])

/-- One iteration of the request loop of `run_server` on a stripped
message: messages starting with the literal `"image"` are answered by the
legacy image branch (the file write is a side effect outside the ledger,
which is left untouched); every other message is dispatched to
`handle_command`. -/
def server_dispatch (H : HashFn) (fuel now : Nat) (bc : Blockchain)
    (message : String) : Option (Response × Blockchain) :=
  if startswith message "image" then some (.image_saved, bc)
  else handle_command H fuel now bc (first_token message) (rest_after_space message)

/-- The ledger operations a caller can drive (the fuel and `now` of a
`mine` are the call's resources and wall-clock reading). -/
inductive Op where
| stage : Data → Op
| mine : Nat → Nat → Op
| validate : Op
| replace : List BlockDict → Op

/-- The ledger state after one operation; `none` when a `mine` does not
return. `validate` reads the chain and returns a boolean, leaving the
state unchanged. -/
def apply_op (H : HashFn) (bc : Blockchain) : Op → Option Blockchain
| .stage d => some (add_data bc d)
| .mine fuel now => (mine_pending_data H fuel now bc).map (·.2)
| .validate => some bc
| .replace cand => some (replace_chain H bc cand).2

/-- The ledger state after a sequence of operations. -/
def run_ops (H : HashFn) : Blockchain → List Op → Option Blockchain
| bc, [] => some bc
| bc, op :: ops =>
  match apply_op H bc op with
  | none => none
  | some bc2 => run_ops H bc2 ops

/-- The three per-block checks of `is_chain_valid`, for a block `cur` whose
predecessor in the chain is `prev`. -/
def blockOK (H : HashFn) (difficulty : Nat) (prev cur : Block) : Prop :=
  cur.hash = calculate_hash H cur
    ∧ cur.previous_hash = prev.hash
    ∧ startswith cur.hash (target difficulty) = true

/-- The genesis invariant on a block: sentinel predecessor digest and the
fixed genesis marker payload. -/
def genesisOK (b : Block) : Prop :=
  b.previous_hash = "0" ∧ b.data = Data.str "Genesis Block"

/-- The per-operation proviso of the amended genesis claim, for an
operation executed in state `bc`: only a `replace` that actually succeeds
in that state is constrained, and then its adopted candidate's first
block must satisfy the genesis invariant.  Rejected replaces and all
other operations are unconstrained. -/
def step_ok (H : HashFn) (bc : Blockchain) : Op → Prop
| Op.replace cand =>
  (replace_chain H bc cand).1 = true →
    ∀ g, (cand.map (Block.from_dict H)).head? = some g → genesisOK g
| _ => True

/-- The proviso of the amended genesis claim along an actual run: every
operation satisfies `step_ok` in the very state in which it executes
(nothing is required of operations past a diverging `mine`, which never
execute). -/
def adopted_ok (H : HashFn) : Blockchain → List Op → Prop
| _, [] => True
| bc, op :: ops =>
  step_ok H bc op ∧
    match apply_op H bc op with
    | none => True
    | some bc2 => adopted_ok H bc2 ops

/-! ### Concrete instances used by witnesses and counterexamples -/

/-- Toy digest: constant. -/
def H0 : HashFn := fun _ _ _ _ _ => "ffff"

/-- Toy digest: a function of the nonce alone, first satisfying a
one-zero difficulty target at nonce 2. -/
def H1 : HashFn := fun _ _ _ _ n => if n = 2 then "0a" else "ff"

/-- Toy digest: echoes a string payload, so that changing the payload
changes the digest. -/
def H2 : HashFn := fun _ _ d _ _ =>
  match d with
  | Data.str s => s
  | Data.list _ => "LL"

/-- A corrupt block: its stored hash starts with a zero but is not the
digest of its fields. -/
def bTam : Block :=
  { index := 0, timestamp := 0, data := Data.str "t", previous_hash := "p",
    nonce := 0, hash := "0b" }

/-- A well-formed block handed to the miner. -/
def bW : Block := Block.init H1 0 0 (Data.str "x") "p" 0

/-- The block the miner returns on `bW` at difficulty 1 under `H1`. -/
def bWres : Block :=
  { index := 0, timestamp := 0, data := Data.str "x", previous_hash := "p",
    nonce := 2, hash := "0a" }

/-- First block of a small valid chain under `H2`. -/
def bW0 : Block := Block.init H2 0 0 (Data.str "g") "0" 0

/-- Second block of a small valid chain under `H2`. -/
def bW1 : Block := Block.init H2 1 0 (Data.str "x") "g" 0

/-- `bW1` with its payload mutated and its stored hash left unchanged. -/
def bW1tam : Block := { bW1 with data := Data.str "y" }

/-- A serialized block whose `hash` entry is not the digest of its
fields. -/
def dBad : BlockDict :=
  { index := 0, timestamp := 0, data := Data.str "x", previous_hash := "p",
    nonce := 0, hash := "zzzz" }

/-- Head of a candidate chain violating the genesis sentinel. -/
def dEvil0 : BlockDict :=
  { index := 0, timestamp := 0, data := Data.str "EVIL", previous_hash := "X",
    nonce := 0, hash := "zz" }

/-- Second block of that candidate chain; its `previous_hash` matches the
recomputed digest of the head under `H0`. -/
def dEvil1 : BlockDict :=
  { index := 1, timestamp := 0, data := Data.str "y", previous_hash := "ffff",
    nonce := 0, hash := "zz" }

/-- A fresh ledger at difficulty 0 under `H0`. -/
def bcI0 : Blockchain := Blockchain.init H0 0 0

/-- A fresh ledger at difficulty 2 under `H0` (the server's ledger). -/
def bc2I : Blockchain := Blockchain.init H0 2 0

/-- `bcI0` with one staged payload. -/
def bcP : Blockchain := add_data bcI0 (Data.str "x")

/-- The block mining `bcP` seals. -/
def bM : Block := Block.init H0 1 1 (Data.list [Data.str "x"]) "ffff" 0

/-- The ledger after mining `bcP`. -/
def bcM : Blockchain :=
  { chain := [create_genesis_block H0 0, bM], difficulty := 0, pending_data := [] }

/-! ### Helper lemmas -/

theorem chain_check_cons (H : HashFn) (d : Nat) (p cur : Block) (rest : List Block) :
    chain_check H d p (cur :: rest) = true ↔
      (blockOK H d p cur ∧ chain_check H d cur rest = true) := by
  simp only [chain_check, blockOK]
  split_ifs with h1 h2 h3 <;> simp_all

theorem chain_check_iff (H : HashFn) (d : Nat) :
    ∀ (l : List Block) (p : Block),
      chain_check H d p l = true ↔
        ∀ j (h : j < l.length),
          blockOK H d ((p :: l).get ⟨j, Nat.lt_succ_of_lt h⟩) (l.get ⟨j, h⟩)
| [], p => by
  simp only [chain_check]
  constructor
  · intro _ j h
    exact absurd h (by simp)
  · intro _
    trivial
| cur :: rest, p => by
  rw [chain_check_cons, chain_check_iff H d rest cur]
  constructor
  · rintro ⟨hok, hrest⟩ j h
    match j with
    | 0 => exact hok
    | k + 1 => exact hrest k (by simpa using h)
  · intro hall
    exact ⟨hall 0 (by simp), fun k hk => hall (k + 1) (by simpa using hk)⟩

theorem is_chain_valid_iff (H : HashFn) (d : Nat) (c : List Block) :
    is_chain_valid H d c = true ↔
      ∀ j (h : j + 1 < c.length),
        blockOK H d (c.get ⟨j, Nat.lt_of_succ_lt h⟩) (c.get ⟨j + 1, h⟩) := by
  cases c with
  | nil =>
    simp only [is_chain_valid]
    constructor
    · intro _ j h
      exact absurd h (by simp)
    · intro _
      trivial
  | cons b rest =>
    rw [show is_chain_valid H d (b :: rest) = chain_check H d b rest from rfl,
      chain_check_iff H d rest b]
    constructor
    · intro hall j h
      exact hall j (by simpa using h)
    · intro hall j hj
      exact hall j (by simpa using hj)

theorem proof_of_work_fields (H : HashFn) (d : Nat) :
    ∀ (fuel : Nat) (b b2 : Block), proof_of_work H d fuel b = some b2 →
      b2.index = b.index ∧ b2.timestamp = b.timestamp ∧ b2.data = b.data
        ∧ b2.previous_hash = b.previous_hash ∧ b.nonce ≤ b2.nonce
| 0, b, b2 => by
  intro h
  simp only [proof_of_work] at h
  split at h
  · cases h
    exact ⟨rfl, rfl, rfl, rfl, Nat.le_refl _⟩
  · cases h
| fuel + 1, b, b2 => by
  intro h
  simp only [proof_of_work] at h
  split at h
  · cases h
    exact ⟨rfl, rfl, rfl, rfl, Nat.le_refl _⟩
  · have ih := proof_of_work_fields H d fuel _ b2 h
    exact ⟨ih.1, ih.2.1, ih.2.2.1, ih.2.2.2.1,
      Nat.le_trans (Nat.le_succ _) ih.2.2.2.2⟩

theorem proof_of_work_hash (H : HashFn) (d : Nat) :
    ∀ (fuel : Nat) (b b2 : Block), b.hash = calculate_hash H b →
      proof_of_work H d fuel b = some b2 →
      b2.hash = calculate_hash H b2
        ∧ startswith b2.hash (target d) = true
        ∧ ∀ n, b.nonce ≤ n → n < b2.nonce →
            startswith (H b.index b.timestamp b.data b.previous_hash n) (target d) = false
| 0, b, b2 => by
  intro hb h
  simp only [proof_of_work] at h
  split at h
  next hcond =>
    cases h
    exact ⟨hb, hcond, fun n h1 h2 => absurd h2 (by omega)⟩
  next => cases h
| fuel + 1, b, b2 => by
  intro hb h
  simp only [proof_of_work] at h
  split at h
  next hcond =>
    cases h
    exact ⟨hb, hcond, fun n h1 h2 => absurd h2 (by omega)⟩
  next hcond =>
    have ih := proof_of_work_hash H d fuel _ b2 rfl h
    refine ⟨ih.1, ih.2.1, fun n h1 h2 => ?_⟩
    rcases Nat.eq_or_lt_of_le h1 with he | hlt
    · rw [← he]
      show startswith (calculate_hash H b) (target d) = false
      rw [← hb]
      cases hx : startswith b.hash (target d)
      · rfl
      · exact absurd hx hcond
    · exact ih.2.2 n hlt h2

theorem head_some_append (l x : List Block) (b0 : Block)
    (h : l.head? = some b0) : (l ++ x).head? = some b0 := by
  cases l with
  | nil => cases h
  | cons a t => simpa using h

theorem mine_pending_chain_shape (H : HashFn) (fuel now : Nat) (bc : Blockchain)
    (r : Option Block × Blockchain) (h : mine_pending_data H fuel now bc = some r) :
    r.2.chain = bc.chain ∨ ∃ mb, r.2.chain = bc.chain ++ [mb] := by
  simp only [mine_pending_data] at h
  split at h
  · cases h
    exact Or.inl rfl
  · split at h
    · cases h
    · split at h
      · cases h
      · cases h
        exact Or.inr ⟨_, rfl⟩

theorem run_ops_genesis (H : HashFn) :
    ∀ (ops : List Op) (bc0 bc : Blockchain) (b0 : Block),
      bc0.chain.head? = some b0 → genesisOK b0 →
      adopted_ok H bc0 ops →
      run_ops H bc0 ops = some bc →
      ∃ g, bc.chain.head? = some g ∧ genesisOK g
| [], bc0, bc, b0 => by
  intro hh hg _ hrun
  cases hrun
  exact ⟨b0, hh, hg⟩
| op :: ops, bc0, bc, b0 => by
  intro hh hg hops hrun
  simp only [run_ops] at hrun
  split at hrun
  · cases hrun
  next bc2 hap =>
    obtain ⟨hsok, hrest⟩ := hops
    rw [hap] at hrest
    have hstep : ∃ g2, bc2.chain.head? = some g2 ∧ genesisOK g2 := by
      cases op with
      | stage d =>
        simp only [apply_op] at hap
        cases hap
        exact ⟨b0, hh, hg⟩
      | validate =>
        simp only [apply_op] at hap
        cases hap
        exact ⟨b0, hh, hg⟩
      | mine fuel now =>
        simp only [apply_op, Option.map_eq_some'] at hap
        obtain ⟨r, hr, hr2⟩ := hap
        rcases mine_pending_chain_shape H fuel now bc0 r hr with hsame | ⟨mb, happ⟩
        · exact ⟨b0, by rw [← hr2, hsame]; exact hh, hg⟩
        · exact ⟨b0, by rw [← hr2, happ]; exact head_some_append _ _ _ hh, hg⟩
      | replace cand =>
        simp only [step_ok] at hsok
        simp only [apply_op, replace_chain] at hap
        split at hap
        next hcond =>
          cases hap
          have hres : (replace_chain H bc0 cand).1 = true := by
            simp only [replace_chain, if_pos hcond]
          have hne : (cand.map (Block.from_dict H)) ≠ [] := by
            intro hnil
            have hlen := hcond.1
            rw [hnil] at hlen
            simp at hlen
          cases hcm : cand.map (Block.from_dict H) with
          | nil => exact absurd hcm hne
          | cons g t =>
            refine ⟨g, by simp [hcm], ?_⟩
            exact hsok hres g (by rw [hcm]; rfl)
        next =>
          cases hap
          exact ⟨b0, hh, hg⟩
    obtain ⟨g2, hh2, hg2⟩ := hstep
    exact run_ops_genesis H ops bc2 bc g2 hh2 hg2 hrest hrun

/-! ### Claims -/

/-- C1: `replace_chain` adopts the (reconstructed) candidate as the new
chain iff it is strictly longer than the current chain and a validation
pass over it with the ledger's own difficulty succeeds; the returned
boolean is true exactly when adoption happened, and on a false return the
chain is exactly as before. -/
theorem replace_chain_spec (H : HashFn) (bc : Blockchain) (cand : List BlockDict) :
    ((replace_chain H bc cand).1 = true ↔
      ((cand.map (Block.from_dict H)).length > bc.chain.length
        ∧ is_chain_valid H bc.difficulty (cand.map (Block.from_dict H)) = true))
    ∧ ((replace_chain H bc cand).1 = true →
        (replace_chain H bc cand).2.chain = cand.map (Block.from_dict H))
    ∧ ((replace_chain H bc cand).1 = false →
        (replace_chain H bc cand).2.chain = bc.chain) := by
  by_cases hcond : (cand.map (Block.from_dict H)).length > bc.chain.length
      ∧ is_chain_valid H bc.difficulty (cand.map (Block.from_dict H)) = true
  · simp only [replace_chain, if_pos hcond]
    exact ⟨⟨fun _ => hcond, fun _ => by trivial⟩, fun _ => by trivial, fun hf => by simp at hf⟩
  · simp only [replace_chain, if_neg hcond]
    exact ⟨⟨fun ht => by simp at ht, fun hc => absurd hc hcond⟩,
      fun ht => by simp at ht, fun _ => by trivial⟩

/-- Witness for C1: a fully valid candidate of length 2 replaces a
genesis-only chain. -/
theorem replace_chain_spec_witness :
    (replace_chain H0 bcI0 [dEvil0, dEvil1]).1 = true
    ∧ (replace_chain H0 bcI0 [dEvil0, dEvil1]).2.chain
        = [dEvil0, dEvil1].map (Block.from_dict H0) :=
  ⟨rfl, (replace_chain_spec H0 bcI0 [dEvil0, dEvil1]).2.1 rfl⟩

/-- C2: `is_chain_valid` is true iff every block from index 1 on has a
stored hash equal to its recomputed digest, a `previous_hash` equal to its
predecessor's stored hash, and a hash meeting the difficulty target;
index 0 is exempt, and a freshly constructed ledger validates. -/
theorem validate_spec (H : HashFn) (d : Nat) (c : List Block) :
    (is_chain_valid H d c = true ↔
      ∀ j (h : j + 1 < c.length),
        blockOK H d (c.get ⟨j, Nat.lt_of_succ_lt h⟩) (c.get ⟨j + 1, h⟩))
    ∧ ∀ t : Nat, is_chain_valid H d (Blockchain.init H d t).chain = true :=
  ⟨is_chain_valid_iff H d c, fun _ => rfl⟩

/-- Witness for C2: a concrete two-block chain validates, and the forward
direction of the characterization extracts the checks on block 1. -/
theorem validate_spec_witness : blockOK H2 0 bW0 bW1 :=
  (validate_spec H2 0 [bW0, bW1]).1.mp (by decide) 0 (by decide)

/-- C3: with pending data staged, a `mine_pending_data` call that returns
appends exactly one block, whose index is the previous chain length,
whose `previous_hash` is the stored hash of the previous last block, and
whose payload is the snapshot of the whole pending queue; afterwards the
pending queue is empty and the sealed block is returned. -/
theorem mine_pending_spec (H : HashFn) (fuel now : Nat) (bc bc2 : Blockchain) (b : Block)
    (hp : bc.pending_data ≠ [])
    (hr : mine_pending_data H fuel now bc = some (some b, bc2)) :
    bc2.chain = bc.chain ++ [b]
    ∧ b.index = bc.chain.length
    ∧ b.timestamp = now
    ∧ b.data = Data.list bc.pending_data
    ∧ (∃ last, bc.chain.getLast? = some last ∧ b.previous_hash = last.hash)
    ∧ bc2.pending_data = []
    ∧ bc2.difficulty = bc.difficulty := by
  simp only [mine_pending_data] at hr
  split at hr
  · simp at hr
  · split at hr
    · cases hr
    next last hlast =>
      split at hr
      · cases hr
      next mined hpw =>
        obtain ⟨e1, e2, e3, e4, _⟩ :=
          proof_of_work_fields H bc.difficulty fuel _ mined hpw
        simp only [Option.some.injEq, Prod.mk.injEq] at hr
        obtain ⟨hmb, hbc⟩ := hr
        subst hmb
        subst hbc
        exact ⟨rfl, e1, e2, e3, ⟨last, hlast, e4⟩, rfl, rfl⟩

/-- Witness for C3: mining a ledger with one staged payload at
difficulty 0. -/
theorem mine_pending_spec_witness :
    bcP.pending_data ≠ []
    ∧ mine_pending_data H0 0 1 bcP = some (some bM, bcM)
    ∧ bM.index = 1
    ∧ bcM.pending_data = []
    ∧ bcM.chain = bcP.chain ++ [bM] :=
  ⟨List.cons_ne_nil _ _, rfl,
    (mine_pending_spec H0 0 1 bcP bcM bM (List.cons_ne_nil _ _) rfl).2.1,
    (mine_pending_spec H0 0 1 bcP bcM bM (List.cons_ne_nil _ _) rfl).2.2.2.2.2.1,
    (mine_pending_spec H0 0 1 bcP bcM bM (List.cons_ne_nil _ _) rfl).1⟩

/-- C4 (amended): for a block whose stored hash is the digest of its
fields, a proof-of-work search that returns preserves the four content
fields, returns a block whose stored hash is the digest of its final
fields and meets the difficulty target, and whose nonce is the least
nonce at or above the initial one whose digest meets the target — so any
two terminating runs from the same initial block find the same nonce. -/
theorem proof_of_work_spec (H : HashFn) (d fuel : Nat) (b b2 : Block)
    (hb : b.hash = calculate_hash H b)
    (hr : proof_of_work H d fuel b = some b2) :
    b2.index = b.index ∧ b2.timestamp = b.timestamp ∧ b2.data = b.data
      ∧ b2.previous_hash = b.previous_hash
      ∧ b2.hash = calculate_hash H b2
      ∧ startswith b2.hash (target d) = true
      ∧ b.nonce ≤ b2.nonce
      ∧ (∀ n, b.nonce ≤ n → n < b2.nonce →
          startswith (H b.index b.timestamp b.data b.previous_hash n) (target d) = false)
      ∧ startswith (H b.index b.timestamp b.data b.previous_hash b2.nonce) (target d) = true
      ∧ (∀ fuel2 b3, proof_of_work H d fuel2 b = some b3 → b3.nonce = b2.nonce) := by
  obtain ⟨e1, e2, e3, e4, e5⟩ := proof_of_work_fields H d fuel b b2 hr
  obtain ⟨g1, g2, g3⟩ := proof_of_work_hash H d fuel b b2 hb hr
  have hdg : H b.index b.timestamp b.data b.previous_hash b2.nonce = b2.hash := by
    rw [g1]
    show H b.index b.timestamp b.data b.previous_hash b2.nonce
      = H b2.index b2.timestamp b2.data b2.previous_hash b2.nonce
    rw [e1, e2, e3, e4]
  refine ⟨e1, e2, e3, e4, g1, g2, e5, g3, by rw [hdg]; exact g2, ?_⟩
  intro fuel2 b3 hr3
  obtain ⟨f1, f2, f3, f4, f5⟩ := proof_of_work_fields H d fuel2 b b3 hr3
  obtain ⟨k1, k2, k3⟩ := proof_of_work_hash H d fuel2 b b3 hb hr3
  have hdg3 : H b.index b.timestamp b.data b.previous_hash b3.nonce = b3.hash := by
    rw [k1]
    show H b.index b.timestamp b.data b.previous_hash b3.nonce
      = H b3.index b3.timestamp b3.data b3.previous_hash b3.nonce
    rw [f1, f2, f3, f4]
  rcases Nat.lt_trichotomy b3.nonce b2.nonce with hlt | heq | hgt
  · have hbad := g3 b3.nonce f5 hlt
    rw [hdg3, k2] at hbad
    exact Bool.noConfusion hbad
  · exact heq
  · have hbad := k3 b2.nonce e5 hgt
    rw [hdg, g2] at hbad
    exact Bool.noConfusion hbad

/-- Witness for C4: under `H1` the search started at nonce 0 returns at
nonce 2. -/
theorem proof_of_work_spec_witness :
    bW.hash = calculate_hash H1 bW
    ∧ proof_of_work H1 1 3 bW = some bWres
    ∧ startswith (H1 bW.index bW.timestamp bW.data bW.previous_hash bWres.nonce)
        (target 1) = true :=
  ⟨rfl, rfl, (proof_of_work_spec H1 1 3 bW bWres rfl rfl).2.2.2.2.2.2.2.2.1⟩

/-- Counterexample for C4 as stated: on a corrupt block whose stored hash
starts with a zero but is not the digest of its fields, the search
returns immediately, with a stored hash different from the recomputed
digest and a nonce whose digest does not meet the target. -/
theorem proof_of_work_tamper_cex :
    proof_of_work H0 1 5 bTam = some bTam
    ∧ (bTam.hash == calculate_hash H0 bTam) = false
    ∧ startswith (H0 bTam.index bTam.timestamp bTam.data bTam.previous_hash bTam.nonce)
        (target 1) = false :=
  ⟨rfl, by decide, rfl⟩

/-- C5: `from_dict` never reads the dictionary's `hash` entry — it always
recomputes the hash from the five content fields, so a serialized block
whose `hash` entry is not that digest does not round-trip. -/
theorem from_dict_recomputes_hash :
    (∀ (H : HashFn) (dd : BlockDict),
      (Block.from_dict H dd).hash = H dd.index dd.timestamp dd.data dd.previous_hash dd.nonce)
    ∧ (Block.from_dict H0 dBad).hash = "ffff"
    ∧ dBad.hash = "zzzz"
    ∧ ((Block.to_dict (Block.from_dict H0 dBad)).hash == dBad.hash) = false :=
  ⟨fun _ _ => rfl, rfl, rfl, by decide⟩

/-- C6 (amended): the genesis invariant holds in every reachable state
provided every adopted candidate's head block itself satisfies it; it is
preserved unconditionally by `stage`, `mine_pending_data`, `validate`
and by rejected `replace_chain` calls. -/
theorem genesis_invariant_guarded (H : HashFn) (d t : Nat) (ops : List Op) (bc : Blockchain)
    (hops : adopted_ok H (Blockchain.init H d t) ops)
    (hrun : run_ops H (Blockchain.init H d t) ops = some bc) :
    ∃ g, bc.chain.head? = some g ∧ genesisOK g :=
  run_ops_genesis H ops (Blockchain.init H d t) bc (create_genesis_block H t) rfl
    ⟨rfl, rfl⟩ hops hrun

/-- Witness for C6: a run whose one `replace_chain` call offers a
candidate with a non-genesis head but is rejected (too short), so the
proviso holds vacuously and the invariant survives. -/
theorem genesis_invariant_guarded_witness :
    genesisOK (create_genesis_block H0 0) := by
  obtain ⟨g, hg, hok⟩ := genesis_invariant_guarded H0 0 0 [Op.replace [dEvil0]]
    (Blockchain.init H0 0 0) ⟨fun h => absurd h (by decide), trivial⟩ rfl
  have hge : g = create_genesis_block H0 0 := by
    have h2 : (Blockchain.init H0 0 0).chain.head? = some (create_genesis_block H0 0) := rfl
    rw [hg] at h2
    exact Option.some.inj h2
  exact hge ▸ hok

/-- Counterexample for C6 as stated: one successful `replace_chain` call
reaches a state whose first block has `previous_hash` `"X"` and payload
`"EVIL"` — not the sentinel and genesis marker. -/
theorem genesis_invariant_cex :
    run_ops H0 bcI0 [Op.replace [dEvil0, dEvil1]] =
      some { chain := [Block.from_dict H0 dEvil0, Block.from_dict H0 dEvil1],
             difficulty := 0, pending_data := [] }
    ∧ (Block.from_dict H0 dEvil0).previous_hash = "X"
    ∧ (("X" : String) == "0") = false
    ∧ (Block.from_dict H0 dEvil0).data = Data.str "EVIL"
    ∧ (("EVIL" : String) == "Genesis Block") = false :=
  ⟨rfl, rfl, by decide, rfl, by decide⟩

/-- C7: on a valid chain, replacing a non-genesis block by one with the
same stored hash but a different recomputed digest makes validation
fail. -/
theorem tamper_evident (H : HashFn) (d : Nat) (c : List Block) (i : Nat) (b2 : Block)
    (hv : is_chain_valid H d c = true) (h1 : 1 ≤ i) (hi : i < c.length)
    (hhash : b2.hash = (c.get ⟨i, hi⟩).hash)
    (hdig : calculate_hash H b2 ≠ calculate_hash H (c.get ⟨i, hi⟩)) :
    is_chain_valid H d (c.set i b2) = false := by
  obtain ⟨j, rfl⟩ : ∃ j, i = j + 1 := ⟨i - 1, by omega⟩
  have hok := (is_chain_valid_iff H d c).mp hv j hi
  by_contra hne
  have hvt : is_chain_valid H d (c.set (j + 1) b2) = true := by
    cases hx : is_chain_valid H d (c.set (j + 1) b2)
    · exact absurd hx hne
    · rfl
  have hlen : j + 1 < (c.set (j + 1) b2).length := by
    rw [List.length_set]
    exact hi
  have hok2 := (is_chain_valid_iff H d _).mp hvt j hlen
  have hget : (c.set (j + 1) b2).get ⟨j + 1, hlen⟩ = b2 := by
    rw [List.get_eq_getElem, List.getElem_set_self]
  rw [hget] at hok2
  exact hdig (hok2.1 ▸ (hhash.trans hok.1))

/-- Witness for C7: mutating the payload of block 1 of a valid two-block
chain while keeping its stored hash makes validation fail. -/
theorem tamper_evident_witness :
    is_chain_valid H2 0 ([bW0, bW1].set 1 bW1tam) = false :=
  tamper_evident H2 0 [bW0, bW1] 1 bW1tam (by decide) (by decide) (by decide) rfl (by decide)

/-- C8: with an empty pending queue, `mine_pending_data` returns the
explicit no-op signal and leaves the ledger exactly as it was. -/
theorem mine_pending_empty_spec (H : HashFn) (fuel now : Nat) (bc : Blockchain)
    (hp : bc.pending_data = []) :
    mine_pending_data H fuel now bc = some (none, bc) := by
  simp [mine_pending_data, hp]

/-- Witness for C8: a fresh ledger has nothing to mine. -/
theorem mine_pending_empty_spec_witness :
    mine_pending_data H0 1 0 bc2I = some (none, bc2I) :=
  mine_pending_empty_spec H0 1 0 bc2I rfl

/-- C9 (amended): a message that does not start with the literal
`"image"` and whose uppercased first token is none of the five commands
is answered with the unknown-command error response, and the ledger is
unchanged; messages starting with `"image"` are instead answered with
success by the legacy image branch (ledger also unchanged). -/
theorem unknown_command_spec (H : HashFn) (fuel now : Nat) (bc : Blockchain) (message : String)
    (himg : startswith message "image" = false)
    (hcmd : first_token message ∉ (["ADD", "MINE", "CHAIN", "VALIDATE", "LENGTH"] : List String)) :
    server_dispatch H fuel now bc message
      = some (Response.unknown (first_token message), bc)
    ∧ (Response.unknown (first_token message)).status = Status.error := by
  simp only [List.mem_cons, List.mem_singleton, not_or] at hcmd
  obtain ⟨h1, h2, h3, h4, h5⟩ := hcmd
  refine ⟨?_, rfl⟩
  simp [server_dispatch, handle_command, himg, h1, h2, h3, h4, h5]

/-- Witness for C9: the message `"FOO bar"`. -/
theorem unknown_command_spec_witness :
    server_dispatch H0 1 0 bc2I "FOO bar" = some (Response.unknown "FOO", bc2I)
    ∧ (Response.unknown "FOO").status = Status.error :=
  unknown_command_spec H0 1 0 bc2I "FOO bar" rfl (by decide)

/-- Counterexample for C9 as stated: the message `"image"` has command
word `"IMAGE"`, which is none of the five commands, yet the dispatch
answers with the success-status image response, not an error. -/
theorem image_command_cex :
    server_dispatch H0 1 0 bc2I "image" = some (Response.image_saved, bc2I)
    ∧ first_token "image" = "IMAGE"
    ∧ ((["ADD", "MINE", "CHAIN", "VALIDATE", "LENGTH"] : List String).contains "IMAGE") = false
    ∧ Response.image_saved.status = Status.success :=
  ⟨rfl, by decide, by decide, rfl⟩

/-- C10: `replace_chain` never touches the pending queue or the
difficulty, whether or not the candidate is adopted. -/
theorem replace_chain_frame (H : HashFn) (bc : Blockchain) (cand : List BlockDict) :
    (replace_chain H bc cand).2.pending_data = bc.pending_data
    ∧ (replace_chain H bc cand).2.difficulty = bc.difficulty := by
  by_cases hcond : (cand.map (Block.from_dict H)).length > bc.chain.length
      ∧ is_chain_valid H bc.difficulty (cand.map (Block.from_dict H)) = true
  · simp only [replace_chain, if_pos hcond]
    exact ⟨by trivial, by trivial⟩
  · simp only [replace_chain, if_neg hcond]
    exact ⟨by trivial, by trivial⟩
